import Mathlib

/-!
A shallow embedding of the client-side monitoring console for the phishing
detection system, translated from `src/frontend/src/App.jsx` (the richer
variant that the specification documents: 2-second background cadence, log
capacity 7, the `bank` / `secure` / length-50 fallback heuristic).

Randomness (`Math.random()`) is modelled by rational parameters in `[0, 1)`
supplied to each step; the wall clock (`Date.now()`) by a natural-number
parameter.  The asynchronous `analyzeUrl` function is split into a start
phase (everything before the `fetch` suspension point) and a resolution
phase (the `then`-side handling of the response, or the `catch` fallback),
so that interleavings with the background timer and with further
submissions can be expressed.  The purely visual parts of the component
(JSX markup, the static `metrics` record, colors) have no behaviour and are
not modelled.
-/

namespace PhishingMonitor

/-- Severity of a log entry: the `level` field of the log objects created in
`App.jsx` (`'INFO'`, `'WARN'`, `'SUCCESS'`). -/
inductive Level where
  | INFO
  | WARN
  | SUCCESS
  deriving DecidableEq, Repr

/-- One entry of the bounded system log: `{ id, time, msg, level }` in the
source.  The `time` field is a display-only string derived from the same
clock as `id`, so the model carries the clock value once, as `id`. -/
structure LogEvent where
  id : Nat
  msg : String
  level : Level
  deriving DecidableEq, Repr

/-- One entry of the aggregate statistics: `{ name, value }` in the source.
The value is an integer so that non-negativity is a provable invariant
rather than a typing artifact. -/
structure StatEntry where
  name : String
  value : Int
  deriving DecidableEq, Repr

/-- The result record displayed by the UI: `{ prediction, confidence, risk }`.
The source stores `confidence` as the decimal string produced by
`toFixed(1)`; the model carries the corresponding rounded rational value. -/
structure DisplayResult where
  prediction : String
  confidence : ℚ
  risk : String
  deriving DecidableEq, Repr

/-- JavaScript `x.toFixed(1)`, as a rational: round to the nearest tenth
(ties away from zero; all values arising here are positive, where this
agrees with Mathlib `round`). -/
def toFixed1 (q : ℚ) : ℚ := ((round (q * 10) : ℤ) : ℚ) / 10

/-- JavaScript `hay.includes(pat)` on the underlying character lists: true
exactly when some suffix of `hay` starts with `pat`. -/
def containsStr : List Char → List Char → Bool
  | [], pat => pat.isEmpty
  | c :: t, pat => pat.isPrefixOf (c :: t) || containsStr t pat

/-- The fallback heuristic condition of `analyzeUrl` (App.jsx line 111):
`url.includes("bank") || url.length > 50 || url.includes("secure")`. -/
def mockIsPhish (u : String) : Bool :=
  containsStr u.data "bank".data || decide (50 < u.length) ||
    containsStr u.data "secure".data

/-- The `mockRes` object built in the fallback branch of `analyzeUrl`
(App.jsx lines 112-116), with `Math.random()` supplied as `r`. -/
def mockResult (u : String) (r : ℚ) : DisplayResult :=
  { prediction := if mockIsPhish u then "phishing" else "benign"
    confidence := toFixed1 (75 + r * 20)
    risk := if mockIsPhish u then "CRITICAL" else "LOW" }

/-- JavaScript `Array.prototype.map` with the element index, as used by the
background tick `setStats` updater (`prev.map((item, index) => ...)`). -/
def mapWithIndex (f : Nat → StatEntry → StatEntry) : Nat → List StatEntry → List StatEntry
  | _, [] => []
  | i, a :: t => f i a :: mapWithIndex f (i + 1) t

/-- The background-tick statistics update (App.jsx lines 27-39): draw
`isPhishing = Math.random() > 0.7` and increment the entry at index 1 when
phishing, index 0 otherwise, rebuilding the touched entry by spread. -/
def tickStats (r : ℚ) (prev : List StatEntry) : List StatEntry :=
  let isPhishing : Bool := decide ((7 : ℚ) / 10 < r)
  mapWithIndex (fun index item =>
    if isPhishing && index == 1 then { item with value := item.value + 1 }
    else if !isPhishing && index == 0 then { item with value := item.value + 1 }
    else item) 0 prev

/-- The synthetic batch identifier of a background log message:
`Math.floor(Math.random() * 9000) + 1000` (App.jsx line 45). -/
def tickBatchId (r : ℚ) : ℤ := ⌊r * 9000⌋ + 1000

/-- The background log entry `newLog` (App.jsx lines 42-47). -/
def tickLog (now : Nat) (r : ℚ) : LogEvent :=
  { id := now
    msg := "Auto-scanning batch #" ++ toString (tickBatchId r) ++ "..."
    level := Level.INFO }

/-- The prior state handed to a `setLogs` functional updater.  React hands a
genuine array, but the defensive guard in the source contemplates an
absent or non-sequence value, modelled by `invalid`. -/
inductive PrevLogs where
  | arr (l : List LogEvent)
  | invalid
  deriving DecidableEq, Repr

/-- The coercion `Array.isArray(prev) ? prev : []` (App.jsx line 50). -/
def coerceLogs : PrevLogs → List LogEvent
  | PrevLogs.arr l => l
  | PrevLogs.invalid => []

/-- The background-tick log push (App.jsx lines 48-52):
`[newLog, ...safePrev].slice(0, 7)` after the `Array.isArray` guard. -/
def tickPushLogs (e : LogEvent) (prev : PrevLogs) : List LogEvent :=
  (e :: coerceLogs prev).take 7

/-- The log pushes of the user-scan paths (App.jsx lines 84-89 and 119-124):
`[{...}, ...prev]`, with no guard and no truncation.  Spreading a
non-sequence prior value throws a `TypeError`, modelled by `Except.error`. -/
def scanPushLogs (e : LogEvent) (prev : PrevLogs) : Except String (List LogEvent) :=
  match prev with
  | PrevLogs.arr l => Except.ok (e :: l)
  | PrevLogs.invalid => Except.error "TypeError: prev is not iterable"

/-- The SUCCESS log entry of the remote-success path (App.jsx lines 84-89). -/
def successLog (now : Nat) (u : String) : LogEvent :=
  { id := now, msg := "User Scan Success: " ++ u, level := Level.SUCCESS }

/-- The WARN log entry of the fallback path (App.jsx lines 119-124). -/
def warnLog (now : Nat) (u : String) : LogEvent :=
  { id := now, msg := "[Simulated] Scan: " ++ u, level := Level.WARN }

/-- The remote-success statistics update (App.jsx lines 92-102): increment
the entry named `Phishing` when the prediction is `"phishing"`, the entry
named `Benign` when it is `"benign"`, rebuilding the touched entry by
spread and returning every other entry unchanged. -/
def mergeStats (p : String) (prev : List StatEntry) : List StatEntry :=
  prev.map (fun item =>
    if p == "phishing" && item.name == "Phishing" then
      { item with value := item.value + 1 }
    else if p == "benign" && item.name == "Benign" then
      { item with value := item.value + 1 }
    else item)

/-- The component state: the `useState` hooks of `App.jsx`, plus two
bookkeeping fields needed to speak about the asynchronous control flow:
`pending` holds the URLs captured by `analyzeUrl` invocations whose `fetch`
has been issued but not yet resolved, and `fetches` counts the network
calls issued to the classification endpoint. -/
structure AppState where
  url : String
  result : Option DisplayResult
  loading : Bool
  backendStatus : String
  stats : List StatEntry
  logs : List LogEvent
  pending : List String
  fetches : Nat
  deriving DecidableEq, Repr

/-- The seeded statistics (App.jsx lines 12-15). -/
def initStats : List StatEntry := [⟨"Benign", 400⟩, ⟨"Phishing", 300⟩]

/-- The initial component state (App.jsx lines 6-18). -/
def initState : AppState :=
  { url := ""
    result := none
    loading := false
    backendStatus := "Checking..."
    stats := initStats
    logs := []
    pending := []
    fetches := 0 }

/-- The synchronous prefix of an `analyzeUrl` invocation (App.jsx lines
59-70): return immediately when the url is empty, otherwise set the loading
flag, clear the displayed result, and issue the `fetch`, capturing the
current url in the closure of the awaiting continuation. -/
def startScan (s : AppState) : AppState :=
  if s.url = "" then s
  else
    { s with
      loading := true
      result := none
      pending := s.pending ++ [s.url]
      fetches := s.fetches + 1 }

/-- The events driving the component.  `setUrl` is the input `onChange`;
`click` is a press of the scan button, which invokes `analyzeUrl` only when
the button is not disabled (`disabled={loading || !url}`, line 166);
`enter` is the Enter keydown on the input, which invokes `analyzeUrl`
unconditionally (line 160); `tick` is one firing of the background interval
with its two `Math.random()` draws; `resolveOk` and `resolveErr` are the
resolution of the oldest in-flight `fetch` with a well-formed 2xx response
or with a network failure / non-2xx status respectively. -/
inductive Ev where
  | setUrl (u : String)
  | click
  | enter
  | tick (now : Nat) (r1 r2 : ℚ)
  | resolveOk (now : Nat) (p : String) (c : ℚ) (rk : String)
  | resolveErr (now : Nat) (r : ℚ)
  deriving DecidableEq, Repr

/-- One step of the component under an event, translated clause by clause
from `App.jsx`.  A `resolveOk` or `resolveErr` with nothing in flight
cannot occur in the browser and is a no-op here. -/
def stepEv : Ev → AppState → AppState
  | Ev.setUrl u, s => { s with url := u }
  | Ev.click, s => if s.loading = true ∨ s.url = "" then s else startScan s
  | Ev.enter, s => startScan s
  | Ev.tick now r1 r2, s =>
      { s with
        stats := tickStats r1 s.stats
        logs := tickPushLogs (tickLog now r2) (PrevLogs.arr s.logs) }
  | Ev.resolveOk now p c rk, s =>
      match s.pending with
      | [] => s
      | u :: rest =>
          { s with
            result := some { prediction := p, confidence := toFixed1 (c * 100), risk := rk }
            logs := successLog now u :: s.logs
            stats := mergeStats p s.stats
            backendStatus := "Online"
            loading := false
            pending := rest }
  | Ev.resolveErr now r, s =>
      match s.pending with
      | [] => s
      | u :: rest =>
          { s with
            backendStatus := "Offline (Simulated Mode)"
            result := some (mockResult u r)
            logs := warnLog now u :: s.logs
            loading := false
            pending := rest }

/-- Run the component from its initial state through a list of events. -/
def run (evs : List Ev) : AppState :=
  evs.foldl (fun s e => stepEv e s) initState

/-- The values column of the statistics, in display order. -/
def statVals (s : AppState) : List ℤ := s.stats.map StatEntry.value

/-- The total of all aggregate counts. -/
def statsTotal (s : AppState) : ℤ := (s.stats.map StatEntry.value).sum

/-- How many classification outcomes an event merges into the statistics:
one per background tick, one per effective remote success whose prediction
conforms to the interface contract, zero otherwise (in particular zero on
the fallback path, which never calls `setStats`). -/
def evMergeDelta (s : AppState) : Ev → Nat
  | Ev.tick _ _ _ => 1
  | Ev.resolveOk _ p _ _ =>
      if s.pending ≠ [] ∧ (p = "phishing" ∨ p = "benign") then 1 else 0
  | _ => 0

/-- Run the component while counting merged outcomes. -/
def runPair (evs : List Ev) : AppState × Nat :=
  evs.foldl (fun acc e => (stepEv e acc.1, acc.2 + evMergeDelta acc.1 e)) (initState, 0)

/-- The number of outcomes merged along an event list. -/
def runMerges (evs : List Ev) : Nat := (runPair evs).2

/-- Shape invariant of the statistics: always the two seeded entries, in
display order, with counts at or above their seeds. -/
def GoodStats (s : AppState) : Prop :=
  ∃ b p : ℤ, 400 ≤ b ∧ 300 ≤ p ∧ s.stats = [⟨"Benign", b⟩, ⟨"Phishing", p⟩]

/-- A heap of statistics entry objects; a list index plays the role of a
JavaScript object reference.  This refines the aliasing behaviour of the
`setStats` updaters: object spread allocates a fresh cell, while the array
produced by `map` holds references. -/
abbrev Heap := List StatEntry

/-- Dereference a snapshot (a list of object references) against a heap. -/
def readSnap (h : Heap) (snap : List Nat) : List (Option StatEntry) :=
  snap.map (fun ref => h[ref]?)

/-- The increment condition of the remote-success `setStats` updater
(App.jsx lines 93-101), as a predicate on one entry object. -/
def userBump (p : String) (cell : StatEntry) : Bool :=
  (p == "phishing" && cell.name == "Phishing") ||
    (p == "benign" && cell.name == "Benign")

/-- The `map`-with-spread statistics update over the heap model: for each
reference in order, either allocate a fresh cell holding the incremented
entry (`{...item, value: item.value + 1}`) and reference it, or keep the
original reference.  The heap only ever grows. -/
def mergeSpread (bump : StatEntry → Bool) : List Nat → Heap → Heap × List Nat
  | [], h => (h, [])
  | ref :: rest, h =>
      match h[ref]? with
      | none =>
          let res := mergeSpread bump rest h
          (res.1, ref :: res.2)
      | some cell =>
          if bump cell then
            let res := mergeSpread bump rest (h ++ [⟨cell.name, cell.value + 1⟩])
            (res.1, List.length h :: res.2)
          else
            let res := mergeSpread bump rest h
            (res.1, ref :: res.2)

/-! ### Basic computation lemmas -/

lemma containsStr_iff (hay pat : List Char) : containsStr hay pat = true ↔ pat <:+: hay := by
  induction hay with
  | nil =>
      simp only [containsStr, List.isEmpty_iff, List.infix_nil]
  | cons c t ih =>
      simp only [containsStr, Bool.or_eq_true, ih, List.infix_cons_iff,
        List.isPrefixOf_iff_prefix]

lemma mockIsPhish_iff (u : String) :
    mockIsPhish u = true ↔
      ("bank".data <:+: u.data ∨ "secure".data <:+: u.data ∨ 50 < u.length) := by
  simp only [mockIsPhish, Bool.or_eq_true, containsStr_iff, decide_eq_true_eq]
  tauto

lemma tickStats_pair (r : ℚ) (b p : ℤ) :
    tickStats r [⟨"Benign", b⟩, ⟨"Phishing", p⟩] =
      if (7 : ℚ) / 10 < r then [⟨"Benign", b⟩, ⟨"Phishing", p + 1⟩]
      else [⟨"Benign", b + 1⟩, ⟨"Phishing", p⟩] := by
  by_cases hr : (7 : ℚ) / 10 < r
  · simp [tickStats, mapWithIndex, hr]
  · simp [tickStats, mapWithIndex, hr]

lemma mergeStats_pair (p : String) (b q : ℤ) :
    mergeStats p [⟨"Benign", b⟩, ⟨"Phishing", q⟩] =
      if p = "phishing" then [⟨"Benign", b⟩, ⟨"Phishing", q + 1⟩]
      else if p = "benign" then [⟨"Benign", b + 1⟩, ⟨"Phishing", q⟩]
      else [⟨"Benign", b⟩, ⟨"Phishing", q⟩] := by
  by_cases h1 : p = "phishing"
  · subst h1; rfl
  · by_cases h2 : p = "benign"
    · subst h2; rfl
    · simp [mergeStats, h1, h2]

lemma confidence_bounds (r : ℚ) (h0 : 0 ≤ r) (h1 : r < 1) :
    75 ≤ toFixed1 (75 + r * 20) ∧ toFixed1 (75 + r * 20) ≤ 95 := by
  have habs := abs_sub_round ((75 + r * 20) * 10)
  rw [abs_le] at habs
  obtain ⟨ha, hb⟩ := habs
  have hlo : (749 : ℚ) < ((round ((75 + r * 20) * 10) : ℤ) : ℚ) := by linarith
  have hhi : ((round ((75 + r * 20) * 10) : ℤ) : ℚ) < 951 := by linarith
  have hlo' : (750 : ℤ) ≤ round ((75 + r * 20) * 10) := by
    have : (749 : ℤ) < round ((75 + r * 20) * 10) := by exact_mod_cast hlo
    omega
  have hhi' : round ((75 + r * 20) * 10) ≤ (950 : ℤ) := by
    have : round ((75 + r * 20) * 10) < (951 : ℤ) := by exact_mod_cast hhi
    omega
  have hlo'' : (750 : ℚ) ≤ ((round ((75 + r * 20) * 10) : ℤ) : ℚ) := by exact_mod_cast hlo'
  have hhi'' : ((round ((75 + r * 20) * 10) : ℤ) : ℚ) ≤ 950 := by exact_mod_cast hhi'
  unfold toFixed1
  constructor <;> linarith

lemma tickBatchId_bounds (r : ℚ) (h0 : 0 ≤ r) (h1 : r < 1) :
    1000 ≤ tickBatchId r ∧ tickBatchId r ≤ 9999 := by
  unfold tickBatchId
  have hfl : (0 : ℤ) ≤ ⌊r * 9000⌋ := by
    apply Int.le_floor.2
    push_cast
    nlinarith
  have hfh : ⌊r * 9000⌋ < (9000 : ℤ) := by
    apply Int.floor_lt.2
    push_cast
    nlinarith
  omega

/-! ### Run and invariant lemmas -/

lemma run_nil : run [] = initState := rfl

lemma run_concat (evs : List Ev) (e : Ev) : run (evs ++ [e]) = stepEv e (run evs) := by
  simp [run, List.foldl_append]

lemma foldlPair_fst (evs : List Ev) (s : AppState) (n : Nat) :
    (List.foldl (fun acc e => (stepEv e acc.1, acc.2 + evMergeDelta acc.1 e)) (s, n) evs).1
      = List.foldl (fun t e => stepEv e t) s evs := by
  induction evs generalizing s n with
  | nil => rfl
  | cons e t ih => simpa using ih (stepEv e s) (n + evMergeDelta s e)

lemma runPair_fst (evs : List Ev) : (runPair evs).1 = run evs := by
  simp [runPair, run, foldlPair_fst]

lemma runMerges_concat (evs : List Ev) (e : Ev) :
    runMerges (evs ++ [e]) = runMerges evs + evMergeDelta (run evs) e := by
  simp [runMerges, runPair, List.foldl_append]
  rw [foldlPair_fst]
  rfl

lemma goodStats_init : GoodStats initState :=
  ⟨400, 300, by norm_num, by norm_num, rfl⟩

lemma startScan_stats (s : AppState) : (startScan s).stats = s.stats := by
  unfold startScan
  split <;> rfl

lemma goodStats_step (e : Ev) (s : AppState) (h : GoodStats s) : GoodStats (stepEv e s) := by
  obtain ⟨b, p, hb, hp, hs⟩ := h
  cases e with
  | setUrl u => exact ⟨b, p, hb, hp, hs⟩
  | click =>
      refine ⟨b, p, hb, hp, ?_⟩
      show (if s.loading = true ∨ s.url = "" then s else startScan s).stats = _
      split
      · exact hs
      · rw [startScan_stats]; exact hs
  | enter =>
      exact ⟨b, p, hb, hp, by rw [show (stepEv Ev.enter s).stats = (startScan s).stats from rfl,
        startScan_stats, hs]⟩
  | tick now r1 r2 =>
      by_cases hr : (7 : ℚ) / 10 < r1
      · exact ⟨b, p + 1, hb, by omega,
          by simp [stepEv, hs, tickStats_pair, hr]⟩
      · exact ⟨b + 1, p, by omega, hp,
          by simp [stepEv, hs, tickStats_pair, hr]⟩
  | resolveOk now pr c rk =>
      cases hpend : s.pending with
      | nil => exact ⟨b, p, hb, hp, by simp [stepEv, hpend, hs]⟩
      | cons u rest =>
          by_cases h1 : pr = "phishing"
          · exact ⟨b, p + 1, hb, by omega,
              by simp [stepEv, hpend, hs, mergeStats_pair, h1]⟩
          · by_cases h2 : pr = "benign"
            · exact ⟨b + 1, p, by omega, hp,
                by simp [stepEv, hpend, hs, mergeStats_pair, h1, h2]⟩
            · exact ⟨b, p, hb, hp,
                by simp [stepEv, hpend, hs, mergeStats_pair, h1, h2]⟩
  | resolveErr now r =>
      cases hpend : s.pending with
      | nil => exact ⟨b, p, hb, hp, by simp [stepEv, hpend, hs]⟩
      | cons u rest => exact ⟨b, p, hb, hp, by simp [stepEv, hpend, hs]⟩

lemma goodStats_run (evs : List Ev) : GoodStats (run evs) := by
  induction evs using List.reverseRecOn with
  | nil => exact goodStats_init
  | append_singleton evs e ih => rw [run_concat]; exact goodStats_step e _ ih

lemma statsTotal_step (e : Ev) (s : AppState) (h : GoodStats s) :
    statsTotal (stepEv e s) = statsTotal s + (evMergeDelta s e : ℤ) := by
  obtain ⟨b, p, hb, hp, hs⟩ := h
  cases e with
  | setUrl u => simp [stepEv, statsTotal, evMergeDelta]
  | click =>
      show statsTotal (if s.loading = true ∨ s.url = "" then s else startScan s) = _
      simp only [evMergeDelta, Nat.cast_zero, add_zero]
      split
      · rfl
      · unfold statsTotal; rw [startScan_stats]
  | enter =>
      show statsTotal (startScan s) = _
      simp only [evMergeDelta, Nat.cast_zero, add_zero]
      unfold statsTotal; rw [startScan_stats]
  | tick now r1 r2 =>
      by_cases hr : (7 : ℚ) / 10 < r1 <;>
        simp [stepEv, statsTotal, evMergeDelta, hs, tickStats_pair, hr] <;> ring
  | resolveOk now pr c rk =>
      cases hpend : s.pending with
      | nil => simp [stepEv, hpend, statsTotal, evMergeDelta]
      | cons u rest =>
          by_cases h1 : pr = "phishing"
          · simp [stepEv, hpend, statsTotal, evMergeDelta, hs, mergeStats_pair, h1]
            ring
          · by_cases h2 : pr = "benign"
            · simp [stepEv, hpend, statsTotal, evMergeDelta, hs, mergeStats_pair, h1, h2]
              ring
            · simp [stepEv, hpend, statsTotal, evMergeDelta, hs, mergeStats_pair, h1, h2]
  | resolveErr now r =>
      cases hpend : s.pending with
      | nil => simp [stepEv, hpend, statsTotal, evMergeDelta]
      | cons u rest => simp [stepEv, hpend, statsTotal, evMergeDelta, hs]

lemma statsTotal_run (evs : List Ev) : statsTotal (run evs) = 700 + (runMerges evs : ℤ) := by
  induction evs using List.reverseRecOn with
  | nil =>
      show statsTotal initState = 700 + ((0 : ℕ) : ℤ)
      norm_num [statsTotal, initState, initStats]
  | append_singleton evs e ih =>
      rw [run_concat, statsTotal_step e _ (goodStats_run evs), ih, runMerges_concat]
      push_cast
      ring

lemma statVals_mono (e : Ev) (s : AppState) (h : GoodStats s) :
    List.Forall₂ (fun a b => a ≤ b) (statVals s) (statVals (stepEv e s)) := by
  obtain ⟨b, p, hb, hp, hs⟩ := h
  have pair : ∀ (l : List ℤ) (x y : ℤ), l = [x, y] → b ≤ x → p ≤ y →
      List.Forall₂ (fun a c => a ≤ c) (statVals s) l := by
    intro l x y hl hx hy
    rw [hl, show statVals s = [b, p] from by simp [statVals, hs]]
    exact List.Forall₂.cons hx (List.Forall₂.cons hy List.Forall₂.nil)
  cases e with
  | setUrl u => exact pair _ b p (by simp [statVals, stepEv, hs]) le_rfl le_rfl
  | click =>
      have hst : (stepEv Ev.click s).stats = s.stats := by
        show (if s.loading = true ∨ s.url = "" then s else startScan s).stats = _
        split
        · rfl
        · exact startScan_stats s
      exact pair _ b p (by simp [statVals, hst, hs]) le_rfl le_rfl
  | enter =>
      have hst : (stepEv Ev.enter s).stats = s.stats := startScan_stats s
      exact pair _ b p (by simp [statVals, hst, hs]) le_rfl le_rfl
  | tick now r1 r2 =>
      by_cases hr : (7 : ℚ) / 10 < r1
      · exact pair _ b (p + 1) (by simp [statVals, stepEv, hs, tickStats_pair, hr])
          le_rfl (by omega)
      · exact pair _ (b + 1) p (by simp [statVals, stepEv, hs, tickStats_pair, hr])
          (by omega) le_rfl
  | resolveOk now pr c rk =>
      cases hpend : s.pending with
      | nil => exact pair _ b p (by simp [statVals, stepEv, hpend, hs]) le_rfl le_rfl
      | cons u rest =>
          by_cases h1 : pr = "phishing"
          · exact pair _ b (p + 1)
              (by simp [statVals, stepEv, hpend, hs, mergeStats_pair, h1]) le_rfl (by omega)
          · by_cases h2 : pr = "benign"
            · exact pair _ (b + 1) p
                (by simp [statVals, stepEv, hpend, hs, mergeStats_pair, h1, h2])
                (by omega) le_rfl
            · exact pair _ b p
                (by simp [statVals, stepEv, hpend, hs, mergeStats_pair, h1, h2])
                le_rfl le_rfl
  | resolveErr now r =>
      cases hpend : s.pending with
      | nil => exact pair _ b p (by simp [statVals, stepEv, hpend, hs]) le_rfl le_rfl
      | cons u rest => exact pair _ b p (by simp [statVals, stepEv, hpend, hs]) le_rfl le_rfl

/-! ### Heap-model lemmas for the map-with-spread merge -/

lemma mergeSpread_cons_none (bump : StatEntry → Bool) (ref : Nat) (rest : List Nat)
    (h : Heap) (hget : h[ref]? = none) :
    mergeSpread bump (ref :: rest) h
      = ((mergeSpread bump rest h).1, ref :: (mergeSpread bump rest h).2) := by
  simp only [mergeSpread]
  rw [hget]

lemma mergeSpread_cons_keep (bump : StatEntry → Bool) (ref : Nat) (rest : List Nat)
    (h : Heap) (cell : StatEntry) (hget : h[ref]? = some cell) (hb : bump cell = false) :
    mergeSpread bump (ref :: rest) h
      = ((mergeSpread bump rest h).1, ref :: (mergeSpread bump rest h).2) := by
  simp only [mergeSpread]
  rw [hget]
  simp [hb]

lemma mergeSpread_cons_bump (bump : StatEntry → Bool) (ref : Nat) (rest : List Nat)
    (h : Heap) (cell : StatEntry) (hget : h[ref]? = some cell) (hb : bump cell = true) :
    mergeSpread bump (ref :: rest) h
      = ((mergeSpread bump rest (h ++ [⟨cell.name, cell.value + 1⟩])).1,
         List.length h :: (mergeSpread bump rest (h ++ [⟨cell.name, cell.value + 1⟩])).2) := by
  simp only [mergeSpread]
  rw [hget]
  simp [hb]

lemma mergeSpread_extends (bump : StatEntry → Bool) (refs : List Nat) (h : Heap) :
    h <+: (mergeSpread bump refs h).1 := by
  induction refs generalizing h with
  | nil => exact List.prefix_rfl
  | cons ref rest ih =>
      cases hget : h[ref]? with
      | none => rw [mergeSpread_cons_none bump ref rest h hget]; exact ih h
      | some cell =>
          cases hb : bump cell with
          | false => rw [mergeSpread_cons_keep bump ref rest h cell hget hb]; exact ih h
          | true =>
              rw [mergeSpread_cons_bump bump ref rest h cell hget hb]
              exact (List.prefix_append h [⟨cell.name, cell.value + 1⟩]).trans
                (ih (h ++ [⟨cell.name, cell.value + 1⟩]))

lemma readSnap_extends {h h2 : Heap} (hp : h <+: h2) (snap : List Nat)
    (hs : ∀ r ∈ snap, r < h.length) : readSnap h2 snap = readSnap h snap := by
  unfold readSnap
  apply List.map_congr_left
  intro r hr
  obtain ⟨t, rfl⟩ := hp
  exact List.getElem?_append_left (hs r hr)

lemma mergeSpread_frame (bump : StatEntry → Bool) (refs snap : List Nat) (h : Heap)
    (hsnap : ∀ r ∈ snap, r < h.length) :
    readSnap (mergeSpread bump refs h).1 snap = readSnap h snap :=
  readSnap_extends (mergeSpread_extends bump refs h) snap hsnap

lemma mergeSpread_reads (bump : StatEntry → Bool) (refs : List Nat) (h : Heap)
    (hv : ∀ r ∈ refs, r < h.length) :
    readSnap (mergeSpread bump refs h).1 (mergeSpread bump refs h).2
      = (readSnap h refs).map (Option.map
          (fun c => if bump c then (⟨c.name, c.value + 1⟩ : StatEntry) else c)) := by
  induction refs generalizing h with
  | nil => rfl
  | cons ref rest ih =>
      have href : ref < h.length := hv ref (by simp)
      have hrest : ∀ r ∈ rest, r < h.length := fun r hr => hv r (by simp [hr])
      have hget : h[ref]? = some h[ref] := List.getElem?_eq_getElem href
      have hsnap_cons : ∀ (h2 : Heap) (x : Nat) (xs : List Nat),
          readSnap h2 (x :: xs) = h2[x]? :: readSnap h2 xs := fun _ _ _ => rfl
      cases hb : bump h[ref] with
      | false =>
          have e1 : (mergeSpread bump (ref :: rest) h).1 = (mergeSpread bump rest h).1 := by
            rw [mergeSpread_cons_keep bump ref rest h h[ref] hget hb]
          have e2 : (mergeSpread bump (ref :: rest) h).2
              = ref :: (mergeSpread bump rest h).2 := by
            rw [mergeSpread_cons_keep bump ref rest h h[ref] hget hb]
          rw [e1, e2, hsnap_cons]
          have hhead : (mergeSpread bump rest h).1[ref]? = h[ref]? := by
            obtain ⟨t, ht⟩ := mergeSpread_extends bump rest h
            rw [← ht]
            exact List.getElem?_append_left href
          rw [hhead, ih h hrest, hsnap_cons, List.map_cons, hget]
          simp [hb]
      | true =>
          have e1 : (mergeSpread bump (ref :: rest) h).1
              = (mergeSpread bump rest (h ++ [(⟨h[ref].name, h[ref].value + 1⟩ : StatEntry)])).1 := by
            rw [mergeSpread_cons_bump bump ref rest h h[ref] hget hb]
          have e2 : (mergeSpread bump (ref :: rest) h).2
              = List.length h :: (mergeSpread bump rest
                  (h ++ [(⟨h[ref].name, h[ref].value + 1⟩ : StatEntry)])).2 := by
            rw [mergeSpread_cons_bump bump ref rest h h[ref] hget hb]
          rw [e1, e2, hsnap_cons]
          have hv2 : ∀ r ∈ rest,
              r < (h ++ [(⟨h[ref].name, h[ref].value + 1⟩ : StatEntry)]).length := by
            intro r hr
            rw [List.length_append]
            have := hrest r hr
            omega
          have hhead : (mergeSpread bump rest
                (h ++ [(⟨h[ref].name, h[ref].value + 1⟩ : StatEntry)])).1[h.length]?
              = some (⟨h[ref].name, h[ref].value + 1⟩ : StatEntry) := by
            obtain ⟨t, ht⟩ := mergeSpread_extends bump rest
              (h ++ [(⟨h[ref].name, h[ref].value + 1⟩ : StatEntry)])
            rw [← ht]
            have hlen : h.length
                < (h ++ [(⟨h[ref].name, h[ref].value + 1⟩ : StatEntry)]).length := by
              rw [List.length_append]
              simp
            rw [List.getElem?_append_left hlen]
            simp
          have htail := ih (h ++ [(⟨h[ref].name, h[ref].value + 1⟩ : StatEntry)]) hv2
          have hsame : readSnap (h ++ [(⟨h[ref].name, h[ref].value + 1⟩ : StatEntry)]) rest
              = readSnap h rest :=
            readSnap_extends (List.prefix_append h _) rest hrest
          rw [hhead, htail, hsame, hsnap_cons, List.map_cons, hget]
          simp [hb]

/-! ### Connectivity-status lemmas -/

lemma startScan_status (s : AppState) : (startScan s).backendStatus = s.backendStatus := by
  unfold startScan
  split <;> rfl

lemma offline_requires_failure (evs : List Ev) :
    (run evs).backendStatus = "Offline (Simulated Mode)" →
      ∃ now r, Ev.resolveErr now r ∈ evs := by
  induction evs using List.reverseRecOn with
  | nil => intro h; exact absurd h (by decide)
  | append_singleton evs e ih =>
      intro h
      rw [run_concat] at h
      cases e with
      | setUrl u =>
          obtain ⟨now, r, hm⟩ := ih h
          exact ⟨now, r, List.mem_append_left _ hm⟩
      | click =>
          have hst : (stepEv Ev.click (run evs)).backendStatus = (run evs).backendStatus := by
            show (if (run evs).loading = true ∨ (run evs).url = "" then run evs
              else startScan (run evs)).backendStatus = _
            split
            · rfl
            · exact startScan_status _
          rw [hst] at h
          obtain ⟨now, r, hm⟩ := ih h
          exact ⟨now, r, List.mem_append_left _ hm⟩
      | enter =>
          rw [show (stepEv Ev.enter (run evs)).backendStatus = (run evs).backendStatus from
            startScan_status _] at h
          obtain ⟨now, r, hm⟩ := ih h
          exact ⟨now, r, List.mem_append_left _ hm⟩
      | tick now r1 r2 =>
          obtain ⟨now', r', hm⟩ := ih h
          exact ⟨now', r', List.mem_append_left _ hm⟩
      | resolveOk now p c rk =>
          cases hpend : (run evs).pending with
          | nil =>
              simp only [stepEv, hpend] at h
              obtain ⟨now', r', hm⟩ := ih h
              exact ⟨now', r', List.mem_append_left _ hm⟩
          | cons u rest =>
              have honline : (stepEv (Ev.resolveOk now p c rk) (run evs)).backendStatus
                  = "Online" := by
                simp [stepEv, hpend]
              rw [honline] at h
              exact absurd h (by decide)
      | resolveErr now r =>
          exact ⟨now, r, List.mem_append_right _ (by simp)⟩

/-! ### Claim theorems -/

/-- C1 (counterexample): with one submission of a non-empty url in flight,
resolving the remote call as a failure leaves the aggregate totals
unchanged — the fallback outcome is never merged, contradicting the claim
that exactly one outcome is merged per submission. -/
theorem c1_counterexample :
    (run [Ev.setUrl "http://x.com", Ev.enter]).pending = ["http://x.com"] ∧
    statsTotal (stepEv (Ev.resolveErr 1 (1/2)) (run [Ev.setUrl "http://x.com", Ev.enter]))
      = statsTotal (run [Ev.setUrl "http://x.com", Ev.enter]) := by
  exact ⟨by decide, by decide⟩

/-- C1 (amended): for any reachable state with a scan in flight, a successful
remote resolution with a contract-conformant prediction merges exactly one
outcome into the aggregate statistics, and a failed remote resolution merges
none: the fallback outcome is displayed and logged but never merged. -/
theorem c1_amended (evs : List Ev) (now : Nat) (p : String) (c r : ℚ) (rk : String)
    (hp : p = "phishing" ∨ p = "benign") (hpend : (run evs).pending ≠ []) :
    statsTotal (stepEv (Ev.resolveOk now p c rk) (run evs)) = statsTotal (run evs) + 1 ∧
    statsTotal (stepEv (Ev.resolveErr now r) (run evs)) = statsTotal (run evs) := by
  have hg := goodStats_run evs
  constructor
  · have hdelta : evMergeDelta (run evs) (Ev.resolveOk now p c rk) = 1 := by
      simp only [evMergeDelta, if_pos (And.intro hpend hp)]
    rw [statsTotal_step _ _ hg, hdelta]
    norm_num
  · rw [statsTotal_step _ _ hg]
    norm_num [evMergeDelta]

theorem c1_witness :
    statsTotal (stepEv (Ev.resolveOk 2 "benign" (9/10) "LOW")
        (run [Ev.setUrl "http://ok.com", Ev.enter]))
      = statsTotal (run [Ev.setUrl "http://ok.com", Ev.enter]) + 1 :=
  (c1_amended [Ev.setUrl "http://ok.com", Ev.enter] 2 "benign" (9/10) (1/2) "LOW"
    (Or.inr rfl) (by decide)).1

/-- C2 (counterexample): with a non-empty url and a scan already in flight
(loading = true), an Enter-key submission is not a no-op: it issues a second
network call and enqueues a second scan, and the two submissions produce two
outcome merges rather than one. -/
theorem c2_counterexample :
    (run [Ev.setUrl "http://a.com", Ev.enter]).loading = true ∧
    stepEv Ev.enter (run [Ev.setUrl "http://a.com", Ev.enter])
      ≠ run [Ev.setUrl "http://a.com", Ev.enter] ∧
    (stepEv Ev.enter (run [Ev.setUrl "http://a.com", Ev.enter])).fetches
      = (run [Ev.setUrl "http://a.com", Ev.enter]).fetches + 1 ∧
    statsTotal (run [Ev.setUrl "http://a.com", Ev.enter, Ev.enter,
        Ev.resolveOk 1 "benign" (9/10) "LOW", Ev.resolveOk 2 "benign" (9/10) "LOW"])
      = statsTotal (run [Ev.setUrl "http://a.com", Ev.enter]) + 2 := by
  exact ⟨by decide, by decide, by decide, by decide⟩

/-- C2 (amended): a button-click submit is a complete no-op whenever the url
is empty or a scan is already in flight (the button is disabled then); an
Enter-key submit, which invokes analyzeUrl directly, is a no-op only when
the url is empty. -/
theorem c2_amended :
    (∀ s : AppState, s.loading = true ∨ s.url = "" → stepEv Ev.click s = s) ∧
    (∀ s : AppState, s.url = "" → stepEv Ev.enter s = s) := by
  constructor
  · intro s h
    show (if s.loading = true ∨ s.url = "" then s else startScan s) = s
    rw [if_pos h]
  · intro s h
    show startScan s = s
    unfold startScan
    rw [if_pos h]

theorem c2_witness :
    stepEv Ev.click { initState with loading := true, url := "u" }
      = { initState with loading := true, url := "u" } ∧
    stepEv Ev.enter initState = initState :=
  ⟨c2_amended.1 _ (Or.inl rfl), c2_amended.2 _ rfl⟩

/-- C3 (counterexample): after seven background pushes the log is at
capacity 7, and the next user-scan SUCCESS push grows it to 8 entries — the
user-scan pushes do not truncate, contradicting the claim that the log holds
at most 7 entries after every push. -/
theorem c3_counterexample :
    (run [Ev.setUrl "http://a.com", Ev.enter,
        Ev.tick 1 0 0, Ev.tick 2 0 0, Ev.tick 3 0 0, Ev.tick 4 0 0, Ev.tick 5 0 0,
        Ev.tick 6 0 0, Ev.tick 7 0 0]).logs.length = 7 ∧
    (run [Ev.setUrl "http://a.com", Ev.enter,
        Ev.tick 1 0 0, Ev.tick 2 0 0, Ev.tick 3 0 0, Ev.tick 4 0 0, Ev.tick 5 0 0,
        Ev.tick 6 0 0, Ev.tick 7 0 0, Ev.resolveOk 8 "benign" (1/2) "LOW"]).logs.length
      = 8 := by
  exact ⟨by decide, by decide⟩

/-- C3 (amended): the background-tick push prepends the new entry and
truncates to the newest 7, discarding the oldest tail entries, so after a
tick the log never exceeds 7; the user-scan SUCCESS and fallback WARN pushes
prepend without truncating, so after those pushes the log grows by one and
may exceed 7 until the next tick. -/
theorem c3_amended (s : AppState) (now : Nat) (r1 r2 : ℚ) :
    (stepEv (Ev.tick now r1 r2) s).logs = (tickLog now r2 :: s.logs).take 7 ∧
    (stepEv (Ev.tick now r1 r2) s).logs.length ≤ 7 ∧
    (∀ p c rk u rest, s.pending = u :: rest →
        (stepEv (Ev.resolveOk now p c rk) s).logs = successLog now u :: s.logs) ∧
    (∀ r u rest, s.pending = u :: rest →
        (stepEv (Ev.resolveErr now r) s).logs = warnLog now u :: s.logs) := by
  refine ⟨rfl, ?_, ?_, ?_⟩
  · show ((tickLog now r2 :: coerceLogs (PrevLogs.arr s.logs)).take 7).length ≤ 7
    rw [List.length_take]
    exact min_le_left _ _
  · intro p c rk u rest hpend
    simp [stepEv, hpend]
  · intro r u rest hpend
    simp [stepEv, hpend]

theorem c3_witness :
    (stepEv (Ev.resolveOk 9 "benign" (1/2) "LOW") (run [Ev.setUrl "u", Ev.enter])).logs
      = successLog 9 "u" :: (run [Ev.setUrl "u", Ev.enter]).logs :=
  (c3_amended (run [Ev.setUrl "u", Ev.enter]) 9 0 0).2.2.1 "benign" (1/2) "LOW" "u" []
    (by decide)

/-- C4: the fallback evaluator labels a url phishing exactly when it contains
"bank", contains "secure", or is longer than 50 characters; the risk level is
CRITICAL exactly when the label is phishing and LOW exactly when it is
benign; and the displayed confidence (75 + r * 20 rounded by toFixed(1), for
a uniform draw r in [0, 1)) is a one-decimal value lying in [75, 95]. -/
theorem c4_fallback_policy (u : String) (r : ℚ) (h0 : 0 ≤ r) (h1 : r < 1) :
    ((mockResult u r).prediction = "phishing" ↔
      ("bank".data <:+: u.data ∨ "secure".data <:+: u.data ∨ 50 < u.length)) ∧
    ((mockResult u r).risk = "CRITICAL" ↔ (mockResult u r).prediction = "phishing") ∧
    ((mockResult u r).risk = "LOW" ↔ (mockResult u r).prediction = "benign") ∧
    75 ≤ (mockResult u r).confidence ∧ (mockResult u r).confidence ≤ 95 ∧
    ∃ k : ℤ, (mockResult u r).confidence = (k : ℚ) / 10 := by
  obtain ⟨hc1, hc2⟩ := confidence_bounds r h0 h1
  have hconf : (mockResult u r).confidence = toFixed1 (75 + r * 20) := rfl
  cases hphish : mockIsPhish u with
  | true =>
      have hcond := (mockIsPhish_iff u).1 hphish
      refine ⟨?_, ?_, ?_, hconf ▸ hc1, hconf ▸ hc2,
        ⟨round ((75 + r * 20) * 10), rfl⟩⟩
      · simp [mockResult, hphish, hcond]
      · simp [mockResult, hphish]
      · simp [mockResult, hphish]
  | false =>
      have hcond : ¬("bank".data <:+: u.data ∨ "secure".data <:+: u.data ∨ 50 < u.length) := by
        rw [← mockIsPhish_iff u]
        simp [hphish]
      refine ⟨?_, ?_, ?_, hconf ▸ hc1, hconf ▸ hc2,
        ⟨round ((75 + r * 20) * 10), rfl⟩⟩
      · simp [mockResult, hphish, hcond]
      · simp [mockResult, hphish]
      · simp [mockResult, hphish]

theorem c4_witness :
    (mockResult "http://secure-bank-login.com" (1/2)).prediction = "phishing" ∧
    (mockResult "http://secure-bank-login.com" (1/2)).risk = "CRITICAL" ∧
    (mockResult "http://example.com" (1/2)).prediction = "benign" ∧
    (mockResult "http://example.com" (1/2)).risk = "LOW" ∧
    75 ≤ (mockResult "http://example.com" (1/2)).confidence := by
  have hs := c4_fallback_policy "http://secure-bank-login.com" (1/2) (by norm_num) (by norm_num)
  have hb := c4_fallback_policy "http://example.com" (1/2) (by norm_num) (by norm_num)
  have hsp : (mockResult "http://secure-bank-login.com" (1/2)).prediction = "phishing" :=
    hs.1.mpr (Or.inl (by decide))
  have hbp : (mockResult "http://example.com" (1/2)).prediction = "benign" :=
    hb.2.2.1.mp (by decide)
  exact ⟨hsp, hs.2.1.mpr hsp, hbp, hb.2.2.1.mpr hbp, hb.2.2.2.1⟩

/-- C5 (counterexample): at session start no outcome has been merged, but the
seeded counts (Benign 400, Phishing 300) already total 700, so the total of
all counts does not equal the number of outcomes merged since session
start. -/
theorem c5_counterexample :
    runMerges [] = 0 ∧ statsTotal (run []) ≠ (runMerges [] : ℤ) := by
  exact ⟨rfl, by decide⟩

/-- C5 (amended): in every reachable state each aggregate count is
non-negative, every operation leaves the counts pointwise non-decreasing,
and the total of all counts equals 700 — the seeded total — plus the number
of outcomes merged since session start. -/
theorem c5_amended (evs : List Ev) (e : Ev) :
    (∀ v ∈ statVals (run evs), 0 ≤ v) ∧
    statsTotal (run evs) = 700 + (runMerges evs : ℤ) ∧
    List.Forall₂ (fun a b => a ≤ b) (statVals (run evs)) (statVals (stepEv e (run evs))) := by
  obtain ⟨b, p, hbn, hpn, hs⟩ := goodStats_run evs
  refine ⟨?_, statsTotal_run evs, statVals_mono e _ (goodStats_run evs)⟩
  intro v hv
  rw [show statVals (run evs) = [b, p] from by simp [statVals, hs]] at hv
  simp only [List.mem_cons, List.not_mem_nil, or_false] at hv
  rcases hv with rfl | rfl
  · omega
  · omega

theorem c5_witness :
    (0 : ℤ) ≤ 400 ∧ statsTotal (run []) = 700 + (runMerges [] : ℤ) :=
  ⟨(c5_amended [] Ev.click).1 400 (by decide), (c5_amended [] Ev.click).2.1⟩

/-- C6: the connectivity status becomes Online after every successful remote
resolution and Offline after every failed remote resolution that triggers
the fallback; a background tick never changes it; and in every reachable
state an Offline status implies some earlier remote call failed. -/
theorem c6_connectivity :
    (∀ (s : AppState) (now : Nat) (p : String) (c : ℚ) (rk : String), s.pending ≠ [] →
        (stepEv (Ev.resolveOk now p c rk) s).backendStatus = "Online") ∧
    (∀ (s : AppState) (now : Nat) (r : ℚ), s.pending ≠ [] →
        (stepEv (Ev.resolveErr now r) s).backendStatus = "Offline (Simulated Mode)") ∧
    (∀ (s : AppState) (now : Nat) (r1 r2 : ℚ),
        (stepEv (Ev.tick now r1 r2) s).backendStatus = s.backendStatus) ∧
    (∀ evs : List Ev, (run evs).backendStatus = "Offline (Simulated Mode)" →
        ∃ now r, Ev.resolveErr now r ∈ evs) := by
  refine ⟨?_, ?_, fun s now r1 r2 => rfl, offline_requires_failure⟩
  · intro s now p c rk hpend
    cases hp : s.pending with
    | nil => exact absurd hp hpend
    | cons u rest => simp [stepEv, hp]
  · intro s now r hpend
    cases hp : s.pending with
    | nil => exact absurd hp hpend
    | cons u rest => simp [stepEv, hp]

theorem c6_witness :
    (stepEv (Ev.resolveErr 3 (1/2)) (run [Ev.setUrl "u", Ev.enter])).backendStatus
      = "Offline (Simulated Mode)" ∧
    (∃ now r, Ev.resolveErr now r ∈ [Ev.setUrl "u", Ev.enter, Ev.resolveErr 3 (1/2)]) := by
  constructor
  · exact c6_connectivity.2.1 (run [Ev.setUrl "u", Ev.enter]) 3 (1/2) (by decide)
  · exact c6_connectivity.2.2.2 [Ev.setUrl "u", Ev.enter, Ev.resolveErr 3 (1/2)] (by decide)

/-- C7: over the heap model of the remote-success merge, reading the new
snapshot shows exactly the entry matching the outcome's label incremented by
1 and every other entry untouched, and any snapshot taken before the merge
reads the same values afterwards: the merge allocates fresh cells via
object spread rather than mutating entries in place. -/
theorem c7_merge_immutable (p : String) (refs snap : List Nat) (h : Heap)
    (hv : ∀ x ∈ refs, x < h.length) (hsnap : ∀ x ∈ snap, x < h.length) :
    readSnap (mergeSpread (userBump p) refs h).1 snap = readSnap h snap ∧
    readSnap (mergeSpread (userBump p) refs h).1 (mergeSpread (userBump p) refs h).2
      = (readSnap h refs).map (Option.map
          (fun c => if userBump p c then (⟨c.name, c.value + 1⟩ : StatEntry) else c)) :=
  ⟨mergeSpread_frame _ refs snap h hsnap, mergeSpread_reads _ refs h hv⟩

theorem c7_witness :
    readSnap (mergeSpread (userBump "phishing") [0, 1] initStats).1 [0, 1]
        = readSnap initStats [0, 1] ∧
    readSnap (mergeSpread (userBump "phishing") [0, 1] initStats).1
        (mergeSpread (userBump "phishing") [0, 1] initStats).2
      = (readSnap initStats [0, 1]).map (Option.map
          (fun c => if userBump "phishing" c then (⟨c.name, c.value + 1⟩ : StatEntry) else c)) :=
  c7_merge_immutable "phishing" [0, 1] [0, 1] initStats (by decide) (by decide)

/-- C8: each background tick merges exactly one synthetic outcome chosen by
the weighted coin — the Phishing count is incremented exactly when the
uniform draw exceeds 0.7 (probability 0.3), the Benign count otherwise
(probability 0.7) — pushes exactly one INFO log entry naming a four-digit
synthetic batch identifier, and never calls the classification client: no
fetch is issued and the in-flight set and connectivity status are
untouched. -/
theorem c8_tick (s : AppState) (now : Nat) (r1 r2 : ℚ) (hg : GoodStats s)
    (h0 : 0 ≤ r2) (h1 : r2 < 1) :
    (∃ b p : ℤ, s.stats = [⟨"Benign", b⟩, ⟨"Phishing", p⟩] ∧
      (stepEv (Ev.tick now r1 r2) s).stats =
        (if (7 : ℚ) / 10 < r1 then [⟨"Benign", b⟩, ⟨"Phishing", p + 1⟩]
         else [⟨"Benign", b + 1⟩, ⟨"Phishing", p⟩])) ∧
    statsTotal (stepEv (Ev.tick now r1 r2) s) = statsTotal s + 1 ∧
    (stepEv (Ev.tick now r1 r2) s).logs = (tickLog now r2 :: s.logs).take 7 ∧
    (tickLog now r2).level = Level.INFO ∧
    (tickLog now r2).msg = "Auto-scanning batch #" ++ toString (tickBatchId r2) ++ "..." ∧
    1000 ≤ tickBatchId r2 ∧ tickBatchId r2 ≤ 9999 ∧
    (stepEv (Ev.tick now r1 r2) s).fetches = s.fetches ∧
    (stepEv (Ev.tick now r1 r2) s).pending = s.pending ∧
    (stepEv (Ev.tick now r1 r2) s).backendStatus = s.backendStatus := by
  obtain ⟨b, p, hbn, hpn, hs⟩ := hg
  obtain ⟨hb1, hb2⟩ := tickBatchId_bounds r2 h0 h1
  refine ⟨⟨b, p, hs, ?_⟩, ?_, rfl, rfl, rfl, hb1, hb2, rfl, rfl, rfl⟩
  · simp [stepEv, hs, tickStats_pair]
  · rw [statsTotal_step (Ev.tick now r1 r2) s ⟨b, p, hbn, hpn, hs⟩]
    norm_num [evMergeDelta]

theorem c8_witness :
    statsTotal (stepEv (Ev.tick 0 (1/2) (1/2)) initState) = statsTotal initState + 1 ∧
    (tickLog 0 (1/2)).level = Level.INFO ∧
    1000 ≤ tickBatchId (1/2) ∧ tickBatchId (1/2) ≤ 9999 := by
  have h := c8_tick initState 0 (1/2) (1/2) goodStats_init (by norm_num) (by norm_num)
  exact ⟨h.2.1, h.2.2.2.1, h.2.2.2.2.2.1, h.2.2.2.2.2.2.1⟩

/-- C9 (counterexample): the orchestrator's success-path log push raises a
TypeError on a non-sequence prior buffer instead of coercing it to empty —
only the background tick's push carries the Array.isArray guard,
contradicting the claim that every push tolerates invalid prior state. -/
theorem c9_counterexample :
    scanPushLogs (successLog 0 "http://a.com") PrevLogs.invalid
      = Except.error "TypeError: prev is not iterable" ∧
    tickPushLogs (tickLog 0 0) PrevLogs.invalid = [tickLog 0 0] :=
  ⟨rfl, rfl⟩

/-- C9 (amended): the background generator's push coerces an absent or
non-sequence prior buffer to empty and pushes the new event without ever
raising, staying within capacity 7; the orchestrator's user-scan pushes
assume a genuine array prior buffer and raise a TypeError on a non-sequence
one. -/
theorem c9_amended (e : LogEvent) (prev : PrevLogs) (l : List LogEvent) :
    tickPushLogs e PrevLogs.invalid = [e] ∧
    tickPushLogs e prev = (e :: coerceLogs prev).take 7 ∧
    (tickPushLogs e prev).length ≤ 7 ∧
    scanPushLogs e (PrevLogs.arr l) = Except.ok (e :: l) ∧
    scanPushLogs e PrevLogs.invalid = Except.error "TypeError: prev is not iterable" := by
  refine ⟨rfl, rfl, ?_, rfl, rfl⟩
  show ((e :: coerceLogs prev).take 7).length ≤ 7
  rw [List.length_take]
  exact min_le_left _ _

/-- C10: an analyzeUrl invocation with a non-empty url clears the displayed
result and raises the loading flag before the call resolves, and both the
remote-success and the fallback resolution reset the loading flag to false
(the finally clause runs on either branch), the fallback additionally
exposing a settled result, so a submission always settles. -/
theorem c10_settles :
    (∀ s : AppState, s.url ≠ "" →
        (stepEv Ev.enter s).result = none ∧ (stepEv Ev.enter s).loading = true ∧
        (stepEv Ev.enter s).fetches = s.fetches + 1) ∧
    (∀ (s : AppState) (now : Nat) (p : String) (c : ℚ) (rk : String), s.pending ≠ [] →
        (stepEv (Ev.resolveOk now p c rk) s).loading = false) ∧
    (∀ (s : AppState) (now : Nat) (r : ℚ), s.pending ≠ [] →
        (stepEv (Ev.resolveErr now r) s).loading = false ∧
        (stepEv (Ev.resolveErr now r) s).result ≠ none) := by
  refine ⟨?_, ?_, ?_⟩
  · intro s h
    show (startScan s).result = none ∧ (startScan s).loading = true ∧
      (startScan s).fetches = s.fetches + 1
    unfold startScan
    rw [if_neg h]
    exact ⟨rfl, rfl, rfl⟩
  · intro s now p c rk hpend
    cases hp : s.pending with
    | nil => exact absurd hp hpend
    | cons u rest => simp [stepEv, hp]
  · intro s now r hpend
    cases hp : s.pending with
    | nil => exact absurd hp hpend
    | cons u rest =>
        constructor
        · simp [stepEv, hp]
        · simp [stepEv, hp]

theorem c10_witness :
    (stepEv Ev.enter (run [Ev.setUrl "u"])).result = none ∧
    (stepEv (Ev.resolveOk 1 "benign" (1/2) "LOW") (run [Ev.setUrl "u", Ev.enter])).loading
      = false ∧
    (stepEv (Ev.resolveErr 1 (1/2)) (run [Ev.setUrl "u", Ev.enter])).loading = false :=
  ⟨(c10_settles.1 (run [Ev.setUrl "u"]) (by decide)).1,
    c10_settles.2.1 (run [Ev.setUrl "u", Ev.enter]) 1 "benign" (1/2) "LOW" (by decide),
    (c10_settles.2.2 (run [Ev.setUrl "u", Ev.enter]) 1 (1/2) (by decide)).1⟩

end PhishingMonitor
